import Mathlib

/-!
Shallow embedding of the go-shell repository (NouemanKHAL/go-shell),
`internal/shell/shell.go` and the entry point `main`.

Go strings are byte slices; we model them as `List Char`, one `Char` per
byte.  Every input the claims exercise is a sequence of single-byte
characters, for which Go's rune decoding coincides with the byte view.
-/

namespace GoShell

/-- A Go string, viewed as its sequence of bytes. -/
abbrev GoStr := List Char

/-- Go `unicode.IsSpace` restricted to single-byte code points:
tab, newline, vertical tab, form feed, carriage return, space,
next line (U+0085) and no-break space (U+00A0). -/
def isSpaceGo (c : Char) : Bool :=
  c = ' ' || c = '\t' || c = '\n' || c.toNat = 11 || c.toNat = 12 ||
  c = '\r' || c.toNat = 133 || c.toNat = 160

/-- Go `strings.TrimSpace`: drop leading and trailing white space. -/
def trimSpace (s : GoStr) : GoStr :=
  ((s.dropWhile isSpaceGo).reverse.dropWhile isSpaceGo).reverse

/-- Go `strings.Fields`: split around runs of white space, keeping only
the non-empty fields. -/
def fieldsGo (s : GoStr) : List GoStr :=
  (s.splitOnP isSpaceGo).filter (fun f => !f.isEmpty)

/-- Go `strings.Split` with a single-byte separator. -/
def splitOnCharGo (sep : Char) (s : GoStr) : List GoStr :=
  s.splitOn sep

/-- Go `strings.Join` with a single-byte separator. -/
def joinGo (sep : Char) (l : List GoStr) : GoStr :=
  List.intercalate [sep] l

/-- Go `fmt.Println(a, b)` output for two operands: `Println` inserts one
space between operands (the trailing newline is left implicit). -/
def printlnTwo (a b : GoStr) : GoStr := a ++ ' ' :: b

/-- Go `unicode.IsDigit` on single-byte code points. -/
def isDigitGo (c : Char) : Bool := 48 ≤ c.toNat && c.toNat ≤ 57

/-- Go `unicode.IsLetter` on single-byte code points (Latin-1 letters). -/
def isLetterGo (c : Char) : Bool :=
  (65 ≤ c.toNat && c.toNat ≤ 90) || (97 ≤ c.toNat && c.toNat ≤ 122) ||
  c.toNat = 170 || c.toNat = 181 || c.toNat = 186 ||
  (192 ≤ c.toNat && c.toNat ≤ 214) || (216 ≤ c.toNat && c.toNat ≤ 246) ||
  (248 ≤ c.toNat && c.toNat ≤ 255)

/-- Go `unicode.IsPunct` on single-byte code points (Unicode categories
Pc, Pd, Pe, Pf, Pi, Po, Ps within Latin-1). -/
def isPunctGo (c : Char) : Bool :=
  (33 ≤ c.toNat && c.toNat ≤ 35) || (37 ≤ c.toNat && c.toNat ≤ 42) ||
  (44 ≤ c.toNat && c.toNat ≤ 47) || (58 ≤ c.toNat && c.toNat ≤ 59) ||
  (63 ≤ c.toNat && c.toNat ≤ 64) || (91 ≤ c.toNat && c.toNat ≤ 93) ||
  c.toNat = 95 || c.toNat = 123 || c.toNat = 125 ||
  c.toNat = 161 || c.toNat = 167 || c.toNat = 171 || c.toNat = 182 ||
  c.toNat = 183 || c.toNat = 187 || c.toNat = 191

/-- Go `unicode.IsSymbol` on single-byte code points (Unicode categories
Sc, Sk, Sm, So within Latin-1). -/
def isSymbolGo (c : Char) : Bool :=
  c.toNat = 36 || c.toNat = 43 || (60 ≤ c.toNat && c.toNat ≤ 62) ||
  c.toNat = 94 || c.toNat = 96 || c.toNat = 124 || c.toNat = 126 ||
  (162 ≤ c.toNat && c.toNat ≤ 166) || c.toNat = 168 || c.toNat = 169 ||
  c.toNat = 172 || (174 ≤ c.toNat && c.toNat ≤ 177) ||
  c.toNat = 180 || c.toNat = 184 || c.toNat = 215 || c.toNat = 247

/-- Go `Shell.isValidChar` (shell.go lines 69-78): newline is accepted,
the literal bracket is rejected, and any other byte is accepted exactly
when it is white space, a digit, a letter, punctuation or a symbol. -/
def isValidChar (b : Char) : Bool :=
  if b = '\n' then true
  else if b = '[' then false
  else isSpaceGo b || isDigitGo b || isLetterGo b || isPunctGo b || isSymbolGo b

/-- The shell state (the fields of Go `type Shell struct` that carry the
data the claims are about; `signalChan`, `historyFilepath` and
`lastPrinted` are pure I/O plumbing). -/
structure Shell where
  workingDir : GoStr
  history : List GoStr
  historyPos : Int
  input : GoStr
deriving Repr, DecidableEq

/-- Go `Shell.insertChar` (shell.go 48-50): append one byte to the input
buffer. -/
def insertChar (s : Shell) (c : Char) : Shell :=
  { s with input := s.input ++ [c] }

/-- Go `Shell.deleteChar` (shell.go 52-57): drop the last byte of the
input buffer; no-op on an empty buffer. -/
def deleteChar (s : Shell) : Shell :=
  if s.input.isEmpty then s else { s with input := s.input.dropLast }

/-- Go `Shell.saveHistory` (shell.go 79-82): the bytes written to the
history file are the entries joined by newlines. -/
def saveHistoryData (history : List GoStr) : GoStr :=
  joinGo '\n' history

/-- Go `Shell.loadHistory` (shell.go 59-67): the loaded history is the
file contents split on newlines. -/
def loadHistoryData (data : GoStr) : List GoStr :=
  splitOnCharGo '\n' data

/-- Go `Shell.previousCommand` (shell.go 100-109): candidate index
`len(history) - historyPos - 1`; when it is inside the history the cursor
advances and the entry is returned, otherwise a bell is printed and the
current input buffer is returned.  Result: (updated shell, returned
string, bell emitted?). -/
def previousCommand (s : Shell) : Shell × GoStr × Bool :=
  let idx : Int := s.history.length - s.historyPos - 1
  if 0 ≤ idx ∧ idx < s.history.length then
    ({ s with historyPos := s.historyPos + 1 }, s.history.getD idx.toNat [], false)
  else
    (s, s.input, true)

/-- Go `Shell.nextCommand` (shell.go 110-119): candidate index
`len(history) - historyPos + 1`; when it is inside the history the cursor
decrements and the entry is returned, otherwise a bell is printed and the
current input buffer is returned. -/
def nextCommand (s : Shell) : Shell × GoStr × Bool :=
  let idx : Int := s.history.length - s.historyPos + 1
  if 0 ≤ idx ∧ idx < s.history.length then
    ({ s with historyPos := s.historyPos - 1 }, s.history.getD idx.toNat [], false)
  else
    (s, s.input, true)

/-- A history-recall edit event (up arrow / down arrow). -/
inductive HistEvent where
  | recallPrev
  | recallNext
deriving Repr, DecidableEq

/-- The candidate index each recall direction computes (the `idx` local
of `previousCommand` and `nextCommand`). -/
def recallIdx (s : Shell) : HistEvent → Int
  | .recallPrev => s.history.length - s.historyPos - 1
  | .recallNext => s.history.length - s.historyPos + 1

/-- One history-recall event as `readInput` performs it
(`s.input = s.previousCommand()` / `s.input = s.nextCommand()`);
the Bool reports whether the bell was printed. -/
def histStep (s : Shell) : HistEvent → Shell × Bool
  | .recallPrev =>
      ({ (previousCommand s).1 with input := (previousCommand s).2.1 },
       (previousCommand s).2.2)
  | .recallNext =>
      ({ (nextCommand s).1 with input := (nextCommand s).2.1 },
       (nextCommand s).2.2)

/-- Iterate the up-arrow event `n` times, counting emitted bells. -/
def applyPrevs (s : Shell) : Nat → Shell × Nat
  | 0 => (s, 0)
  | n + 1 =>
      ((applyPrevs (histStep s .recallPrev).1 n).1,
       (if (histStep s .recallPrev).2 then 1 else 0) +
         (applyPrevs (histStep s .recallPrev).1 n).2)

/-- The state of the `readInput` byte loop (shell.go 121-191): the shell
plus the `prev` byte variable of the loop. -/
structure RIState where
  sh : Shell
  prev : Char
deriving Repr, DecidableEq

/-- Result of one iteration of the `readInput` loop body: continue, or
break out of the loop (enter was hit).  The Bool records whether the
iteration printed the bell. -/
inductive StepOut where
  | cont (st : RIState) (bell : Bool)
  | stop (st : RIState) (bell : Bool)
deriving Repr, DecidableEq

/-- One iteration of the `readInput` byte loop (shell.go 137-184), given
the byte `b` that was successfully read.  Mirrors the source: the
escape branch keyed on `prev == '['` comes first (its `default` case
inserts `prev` unconditionally and `b` only if `isValidChar b`); then a
bare `'['` only arms the escape state; then backspace / printable
filtering; then the enter check. -/
def readStep (st : RIState) (b : Char) : StepOut :=
  if st.prev = '[' then
    if b = 'A' then
      let r := histStep st.sh .recallPrev
      .cont ⟨r.1, Char.ofNat 0⟩ r.2
    else if b = 'B' then
      let r := histStep st.sh .recallNext
      .cont ⟨r.1, Char.ofNat 0⟩ r.2
    else if b = 'C' then .cont ⟨st.sh, Char.ofNat 0⟩ false
    else if b = 'D' then .cont ⟨st.sh, Char.ofNat 0⟩ false
    else
      let s1 := insertChar st.sh st.prev
      let s2 := if isValidChar b then insertChar s1 b else s1
      .cont ⟨s2, b⟩ false
  else if b = '[' then
    .cont ⟨st.sh, '['⟩ false
  else
    let s1 :=
      if b = Char.ofNat 127 then deleteChar st.sh
      else if isValidChar b then insertChar st.sh b
      else st.sh
    if b = '\n' then .stop ⟨s1, b⟩ false
    else .cont ⟨s1, b⟩ false

/-- The `readInput` loop run against a finite stream of stdin bytes.
An exhausted stream is a failing `ReadByte` (end of input or read
error): the source prints a diagnostic and breaks out of the loop.
Returns the final loop state and the bytes left unread. -/
def readLoop (st : RIState) : List Char → RIState × List Char
  | [] => (st, [])
  | b :: rest =>
      match readStep st b with
      | .cont st' _ => readLoop st' rest
      | .stop st' _ => (st', rest)

/-- Go `Shell.readInput` (shell.go 121-191): reset the buffer and the
history cursor, run the byte loop until enter or a read failure, and
return the trimmed buffer.  The final `Option Unit` is the Go `error`
result: the source always executes `return trimmedInput, nil`, so it is
`none` even when the loop ended on a read failure. -/
def readInput (s : Shell) (stream : List Char) :
    Shell × List Char × GoStr × Option Unit :=
  let s0 : Shell := { s with input := [], historyPos := 0 }
  let r := readLoop ⟨s0, Char.ofNat 0⟩ stream
  (r.1.sh, r.2, trimSpace r.1.sh.input, none)

/-- The stdin wiring of a spawned command: `nilStdin` models an `exec.Cmd`
whose `Stdin` field was never assigned (the child reads end-of-file),
`terminal` models `os.Stdin`, and `buffer data` models a `bytes.Buffer`
holding exactly `data`. -/
inductive Stdin where
  | nilStdin
  | terminal
  | buffer (data : GoStr)
deriving Repr, DecidableEq

/-- A command specification as built by `exec.Command`: program name,
arguments, and the `Dir` field (`[]`, the Go zero value, means the child
inherits the shell process's own OS-level working directory). -/
structure Cmd where
  name : GoStr
  args : List GoStr
  dir : GoStr
deriving Repr, DecidableEq

/-- Go `Shell.parseCommand` (shell.go 216-223): whitespace-split the
segment and read `fields[0]`.  On an empty fields slice `fields[0]`
panics with index out of range; `none` models that panic.  The built
command never has its `Dir` field assigned. -/
def parseCommand (input : GoStr) : Option Cmd :=
  match fieldsGo input with
  | [] => none
  | n :: a => some ⟨n, a, []⟩

/-- The command-building loop of `handlePipeCommands` (shell.go 245-248);
`none` models the `parseCommand` panic aborting the program, so no
command after the offending segment is built. -/
def parseAll : List GoStr → Option (List Cmd)
  | [] => some []
  | seg :: rest =>
      match parseCommand seg, parseAll rest with
      | some c, some cs => some (c :: cs)
      | _, _ => none

deriving instance DecidableEq for Except

/-- The record of one attempted pipeline stage: the command, the stdin it
was wired to, and the `cmd.Run` result (`.ok out` with the bytes written
to its captured stdout, or `.error msg`). -/
structure Stage where
  cmd : Cmd
  stdin : Stdin
  result : Except GoStr GoStr
deriving Repr, DecidableEq

/-- The executor loop of `handlePipeCommands` (shell.go 250-266): stages
run sequentially, each stage's captured stdout buffer becoming the next
stage's stdin; the loop returns (aborts) after the first failing `Run`.
The first command's `Stdin` is never assigned.  The last stage's stdout
goes to the terminal in the source; the trace records its output bytes
all the same. -/
def runStages (run : Cmd → Stdin → Except GoStr GoStr) :
    List Cmd → Stdin → List Stage
  | [], _ => []
  | c :: cs, inp =>
      match run c inp with
      | .ok out => ⟨c, inp, .ok out⟩ :: runStages run cs (.buffer out)
      | .error e => [⟨c, inp, .error e⟩]

/-- Result of `handlePipeCommands` (shell.go 242-269): either the
`parseCommand` panic, or a completed run with its stage trace and
whether a non-nil error was returned to the caller. -/
inductive PipeResult where
  | panicked
  | completed (trace : List Stage) (err : Bool)
deriving Repr, DecidableEq

/-- Go `Shell.handlePipeCommands` (shell.go 242-269): split the line on
`'|'`, parse every segment into a command, then run the stages wired
buffer-to-buffer. -/
def handlePipeCommands (run : Cmd → Stdin → Except GoStr GoStr)
    (input : GoStr) : PipeResult :=
  match parseAll (splitOnCharGo '|' input) with
  | none => .panicked
  | some cmds =>
      let tr := runStages run cmds .nilStdin
      .completed tr (tr.any (fun st => !st.result.isOk))

/-- The OS facilities the shell calls, supplied as oracles: `resolve` is
`exec.LookPath` success, `run c stdin` is `cmd.Run` for an external
command (`.error msg` carries the error text), `dirExists` is `os.ReadDir`
success in `changeDir`, and `pathJoin` is `path.Join`. -/
structure Env where
  resolve : GoStr → Bool
  run : Cmd → Stdin → Except GoStr GoStr
  dirExists : GoStr → Bool
  pathJoin : GoStr → GoStr → GoStr

/-- The externally visible effects of one prompt cycle that the claims
talk about.  Terminal rendering (`printPrompt`) and the bell are modelled
elsewhere; `writeFile` would be `os.WriteFile` (only `saveHistory`
performs it). -/
inductive Effect where
  | printOut (msg : GoStr)
  | spawn (c : Cmd)
  | writeFile (p : GoStr) (data : GoStr)
deriving Repr, DecidableEq

/-- Is the effect a printed diagnostic line? -/
def isPrintEffect : Effect → Bool
  | .printOut _ => true
  | _ => false

/-- Is the effect a file write? -/
def isWriteFile : Effect → Bool
  | .writeFile _ _ => true
  | _ => false

/-- How one `Prompt` call ended: a normal return (the entry loop calls
`Prompt` again), `os.Exit(code)`, or a runtime panic. -/
inductive Outcome where
  | next (s : Shell)
  | exited (code : Nat)
  | panicked
deriving Repr, DecidableEq

/-- Go `path.IsAbs`: non-empty and starting with a slash. -/
def isAbsGo (p : GoStr) : Bool :=
  match p with
  | [] => false
  | c :: _ => c = '/'

/-- Go `Shell.addToHistory` (shell.go 271-273). -/
def addToHistory (s : Shell) (input : GoStr) : Shell :=
  { s with history := s.history ++ [input] }

/-- The history-recording guard of `Prompt` (shell.go line 288): skip the
empty input, the literal `history` command and inputs starting with a
space. -/
def shouldRecord (input : GoStr) : Bool :=
  !input.isEmpty && input ≠ ('h' :: 'i' :: 's' :: 't' :: 'o' :: 'r' :: 'y' :: []) &&
  input.headD ' ' ≠ ' '

/-- Go `Shell.changeDir` (shell.go 201-214): make the target absolute
against the tracked working directory, print the notice, probe the
target with `os.ReadDir`, and update `workingDir` on success.  Returns
(updated shell, error returned?, printed lines).  The OS error text that
`Prompt` would append to its `cd: error:` line is carried by the caller
generically. -/
def changeDir (env : Env) (s : Shell) (dir : GoStr) : Shell × Bool × List Effect :=
  let d := if isAbsGo dir then dir else env.pathJoin s.workingDir dir
  let notice := Effect.printOut (printlnTwo ('c' :: 'h' :: 'a' :: 'n' :: 'g' :: 'i' :: 'n' :: 'g' :: ' ' :: 'd' :: 'i' :: 'r' :: 'e' :: 'c' :: 't' :: 'o' :: 'r' :: 'y' :: ' ' :: 't' :: 'o' :: ' ' :: []) d)
  if env.dirExists d then
    ({ s with workingDir := d }, false, [notice])
  else
    (s, true, [notice])

/-- The diagnostic prefix `gosh: command not found: `. -/
def cnfMsg : GoStr :=
  'g' :: 'o' :: 's' :: 'h' :: ':' :: ' ' :: 'c' :: 'o' :: 'm' :: 'm' :: 'a' :: 'n' :: 'd' :: ' ' :: 'n' :: 'o' :: 't' :: ' ' :: 'f' :: 'o' :: 'u' :: 'n' :: 'd' :: ':' :: ' ' :: []

/-- The body of `Prompt` after input collection (shell.go 287-350):
dispatch on the submitted line.  The deferred `addToHistory` runs only
when `Prompt` returns normally; `os.Exit` and panics skip it.  On the
pipe path the error result of `handlePipeCommands` is discarded and
nothing is printed (line 294). -/
def promptDispatch (env : Env) (s : Shell) (input : GoStr) :
    Outcome × List Effect :=
  let record := shouldRecord input
  if input.contains '|' then
    match handlePipeCommands env.run input with
    | .panicked => (.panicked, [])
    | .completed tr _ =>
        (.next (if record then addToHistory s input else s),
         tr.map (fun st => Effect.spawn st.cmd))
  else
    match fieldsGo input with
    | [] => (.next (if record then addToHistory s input else s), [])
    | commandName :: args =>
        if commandName = ('c' :: 'd' :: []) then
          if args.isEmpty then
            (.next (if record then addToHistory s input else s),
             [.printOut ('c' :: 'd' :: ':' :: ' ' :: 'r' :: 'e' :: 'q' :: 'u' :: 'i' :: 'r' :: 'e' :: 's' :: ' ' :: '1' :: ' ' :: 'a' :: 'r' :: 'g' :: 'u' :: 'm' :: 'e' :: 'n' :: 't' :: [])])
          else
            let r := changeDir env s (args.headD [])
            (.next (if record then addToHistory r.1 input else r.1),
             r.2.2 ++ (if r.2.1 then [Effect.printOut ('c' :: 'd' :: ':' :: ' ' :: 'e' :: 'r' :: 'r' :: 'o' :: 'r' :: ':' :: ' ' :: [])] else []))
        else if commandName = ('p' :: 'w' :: 'd' :: []) then
          (.next (if record then addToHistory s input else s),
           [.printOut s.workingDir])
        else if commandName = ('h' :: 'i' :: 's' :: 't' :: 'o' :: 'r' :: 'y' :: []) then
          (.next (if record then addToHistory s input else s),
           [.printOut (joinGo '\n' s.history)])
        else if commandName = ('e' :: 'x' :: 'i' :: 't' :: []) then
          (.exited 0, [])
        else if env.resolve commandName then
          let c : Cmd := ⟨commandName, args, s.workingDir⟩
          match env.run c .terminal with
          | .ok _ =>
              (.next (if record then addToHistory s input else s), [.spawn c])
          | .error e =>
              (.next (if record then addToHistory s input else s),
               [.spawn c, .printOut e])
        else
          (.next (if record then addToHistory s input else s),
           [.printOut (printlnTwo cnfMsg commandName)])

/-- Go `Shell.Prompt` (shell.go 275-350): collect one line from the byte
stream, then dispatch it.  Because `readInput` always returns a nil
error, the error branch at lines 282-285 is dead.  Returns the outcome,
the bytes left unread and the effect trace. -/
def promptGo (env : Env) (s : Shell) (stream : List Char) :
    Outcome × List Char × List Effect :=
  let r := readInput s stream
  match r.2.2.2 with
  | some _ => (.next r.1, r.2.1, [])
  | none =>
      let d := promptDispatch env r.1 r.2.2.1
      (d.1, r.2.1, d.2)

/-- The program entry loop (src/unnamed/part_000 lines 61-71):
`for { sh.Prompt() }`, run for `fuel` cycles against the stdin stream.
It never calls `Start`, so no shutdown `saveHistory` exists on any path;
the loop only ends through `os.Exit` or a panic. -/
def runShell (env : Env) : Nat → Shell → List Char → Outcome × List Effect
  | 0, s, _ => (.next s, [])
  | n + 1, s, stream =>
      match promptGo env s stream with
      | (.next s', rest, effs) =>
          let r := runShell env n s' rest
          (r.1, effs ++ r.2)
      | (.exited code, _, effs) => (.exited code, effs)
      | (.panicked, _, effs) => (.panicked, effs)

/-- A concrete environment in which every program resolves and every run
succeeds writing the single byte `o`. -/
def env0 : Env :=
  { resolve := fun _ => true
    run := fun _ _ => .ok ['o']
    dirExists := fun _ => true
    pathJoin := fun a b => a ++ '/' :: b }

/-- A concrete environment in which no program resolves and every run
fails. -/
def envFail : Env :=
  { resolve := fun _ => false
    run := fun _ _ => .error ['e']
    dirExists := fun _ => false
    pathJoin := fun a b => a ++ '/' :: b }

/-- A concrete shell state with tracked working directory `/tmp`. -/
def shell0 : Shell :=
  { workingDir := '/' :: 't' :: 'm' :: 'p' :: []
    history := []
    historyPos := 0
    input := [] }

/-- Placeholder stage used as the default of total list indexing in
statements; every use is guarded by an index-in-range hypothesis. -/
def stageDefault : Stage := ⟨⟨[], [], []⟩, .nilStdin, .ok []⟩

/-! Theorems. -/

/-- C4 counterexample: saving the empty history writes the empty file,
and loading the empty file yields the one-entry history containing the
empty string, not the empty history. -/
theorem saveLoad_empty_not_roundtrip :
    loadHistoryData (saveHistoryData []) = [[]] ∧
    loadHistoryData (saveHistoryData []) ≠ ([] : List GoStr) := by
  constructor
  · rfl
  · decide

/-- C4 (amended): for every non-empty sequence of non-empty entries
without embedded newlines, saving the history and loading it back yields
the same ordered entry sequence; the empty sequence instead loads back
as a single empty entry. -/
theorem saveLoad_roundtrip (l : List GoStr) (hne : l ≠ [])
    (hnonempty : ∀ e ∈ l, e ≠ ([] : GoStr)) (hnl : ∀ e ∈ l, '\n' ∉ e) :
    loadHistoryData (saveHistoryData l) = l := by
  unfold loadHistoryData saveHistoryData splitOnCharGo joinGo
  exact List.splitOn_intercalate l '\n' hnl hne

/-- Witness for the round-trip theorem at the history `ls`, `a`. -/
theorem saveLoad_roundtrip_witness :
    loadHistoryData (saveHistoryData [('l' :: 's' :: []), ['a']]) =
      [('l' :: 's' :: []), ['a']] :=
  saveLoad_roundtrip [('l' :: 's' :: []), ['a']] (by decide) (by decide) (by decide)

/-- C5 counterexample: with history `a`,`b`,`c` and cursor 2,
`nextCommand` returns the entry at index `3 - 2 + 1 = 2` (the string
`c`), not the entry at the claimed candidate index
`3 - 1 - (2 - 1) = 1` (the string `b`). -/
theorem nextCommand_offbyone :
    (nextCommand ⟨[], [['a'], ['b'], ['c']], 2, ['x']⟩).2.1 = ['c'] ∧
    (nextCommand ⟨[], [['a'], ['b'], ['c']], 2, ['x']⟩).2.1 ≠
      [['a'], ['b'], ['c']].getD (3 - 1 - (2 - 1)) [] := by
  constructor
  · rfl
  · decide

/-- C5 (amended): `nextCommand` computes the candidate index
`len(entries) - cursor + 1`; when that index lies in
`[0, len(entries))` the cursor is decremented and the entry at that
index is returned, and otherwise the operation is rejected with cursor
and buffer unchanged and the bell emitted. -/
theorem nextCommand_spec (s : Shell) :
    (0 ≤ recallIdx s .recallNext ∧ recallIdx s .recallNext < s.history.length →
      nextCommand s = ({ s with historyPos := s.historyPos - 1 },
        s.history.getD (recallIdx s .recallNext).toNat [], false)) ∧
    (¬ (0 ≤ recallIdx s .recallNext ∧ recallIdx s .recallNext < s.history.length) →
      nextCommand s = (s, s.input, true)) := by
  unfold nextCommand recallIdx
  constructor
  · intro h
    rw [if_pos h]
  · intro h
    rw [if_neg h]

/-- Witness for the `nextCommand` characterisation: history `a`,`b`,`c`,
cursor 2; the candidate index is 2, the cursor drops to 1 and the entry
`c` is returned. -/
theorem nextCommand_spec_witness :
    nextCommand ⟨[], [['a'], ['b'], ['c']], 2, ['x']⟩ =
      (⟨[], [['a'], ['b'], ['c']], 1, ['x']⟩, ['c'], false) :=
  (nextCommand_spec ⟨[], [['a'], ['b'], ['c']], 2, ['x']⟩).1 (by decide)

/-- Characterisation of `previousCommand` by its candidate index. -/
theorem previousCommand_eq (s : Shell) :
    previousCommand s =
      if 0 ≤ recallIdx s .recallPrev ∧ recallIdx s .recallPrev < s.history.length
      then ({ s with historyPos := s.historyPos + 1 },
            s.history.getD (recallIdx s .recallPrev).toNat [], false)
      else (s, s.input, true) := by
  simp only [previousCommand, recallIdx]

/-- Characterisation of `nextCommand` by its candidate index. -/
theorem nextCommand_eq (s : Shell) :
    nextCommand s =
      if 0 ≤ recallIdx s .recallNext ∧ recallIdx s .recallNext < s.history.length
      then ({ s with historyPos := s.historyPos - 1 },
            s.history.getD (recallIdx s .recallNext).toNat [], false)
      else (s, s.input, true) := by
  simp only [nextCommand, recallIdx]

/-- An accepted up-arrow step: cursor advances and the buffer is replaced
by the fetched entry. -/
theorem histStep_prev_accept (s : Shell)
    (h : 0 ≤ recallIdx s .recallPrev ∧ recallIdx s .recallPrev < s.history.length) :
    histStep s .recallPrev =
      ({ s with
          historyPos := s.historyPos + 1
          input := s.history.getD (recallIdx s .recallPrev).toNat [] }, false) := by
  unfold histStep
  rw [previousCommand_eq, if_pos h]

/-- A rejected up-arrow step leaves the shell unchanged. -/
theorem histStep_prev_reject (s : Shell)
    (h : ¬ (0 ≤ recallIdx s .recallPrev ∧ recallIdx s .recallPrev < s.history.length)) :
    histStep s .recallPrev = (s, true) := by
  unfold histStep
  rw [previousCommand_eq, if_neg h]

/-- An accepted down-arrow step: cursor decrements and the buffer is
replaced by the fetched entry. -/
theorem histStep_next_accept (s : Shell)
    (h : 0 ≤ recallIdx s .recallNext ∧ recallIdx s .recallNext < s.history.length) :
    histStep s .recallNext =
      ({ s with
          historyPos := s.historyPos - 1
          input := s.history.getD (recallIdx s .recallNext).toNat [] }, false) := by
  unfold histStep
  rw [nextCommand_eq, if_pos h]

/-- A rejected down-arrow step leaves the shell unchanged. -/
theorem histStep_next_reject (s : Shell)
    (h : ¬ (0 ≤ recallIdx s .recallNext ∧ recallIdx s .recallNext < s.history.length)) :
    histStep s .recallNext = (s, true) := by
  unfold histStep
  rw [nextCommand_eq, if_neg h]

/-- While the cursor plus the remaining presses stay within the history,
every up-arrow press is accepted: the cursor advances one per press, the
history is untouched and no bell rings. -/
theorem applyPrevs_pos : ∀ (n : Nat) (s : Shell) (k : Nat),
    s.historyPos = (k : Int) → k + n ≤ s.history.length →
    (applyPrevs s n).1.historyPos = ((k + n : Nat) : Int) ∧
    (applyPrevs s n).1.history = s.history ∧
    (applyPrevs s n).2 = 0 := by
  intro n
  induction n with
  | zero =>
      intro s k hk _
      refine ⟨?_, rfl, rfl⟩
      simpa [applyPrevs] using hk
  | succ m ih =>
      intro s k hk hle
      have hcond : 0 ≤ recallIdx s .recallPrev ∧
          recallIdx s .recallPrev < s.history.length := by
        simp only [recallIdx]
        rw [hk]
        constructor <;> omega
      have hstep := histStep_prev_accept s hcond
      have hpos : ({ s with
          historyPos := s.historyPos + 1
          input := s.history.getD (recallIdx s .recallPrev).toNat [] } :
            Shell).historyPos = ((k + 1 : Nat) : Int) := by
        simp [hk]
      obtain ⟨ih1, ih2, ih3⟩ := ih
        ({ s with
          historyPos := s.historyPos + 1
          input := s.history.getD (recallIdx s .recallPrev).toNat [] })
        (k + 1) hpos (by simp only [Shell.mk.injEq] at hle ⊢; omega)
      refine ⟨?_, ?_, ?_⟩
      · show (applyPrevs (histStep s .recallPrev).1 m).1.historyPos = _
        rw [hstep]
        rw [ih1]
        congr 1
        omega
      · show (applyPrevs (histStep s .recallPrev).1 m).1.history = s.history
        rw [hstep]
        exact ih2
      · show (if (histStep s .recallPrev).2 then 1 else 0) +
            (applyPrevs (histStep s .recallPrev).1 m).2 = 0
        rw [hstep]
        simpa using ih3

/-- Once the cursor equals the history length, every further up-arrow
press is rejected: the state is frozen and each press rings the bell
exactly once. -/
theorem applyPrevs_boundary : ∀ (n : Nat) (s : Shell),
    s.historyPos = (s.history.length : Int) →
    applyPrevs s n = (s, n) := by
  intro n
  induction n with
  | zero => intro s _; rfl
  | succ m ih =>
      intro s hk
      have hcond : ¬ (0 ≤ recallIdx s .recallPrev ∧
          recallIdx s .recallPrev < s.history.length) := by
        simp only [recallIdx]
        rw [hk]
        intro h
        omega
      have hstep := histStep_prev_reject s hcond
      show ((applyPrevs (histStep s .recallPrev).1 m).1,
        (if (histStep s .recallPrev).2 then 1 else 0) +
          (applyPrevs (histStep s .recallPrev).1 m).2) = (s, m + 1)
      rw [hstep]
      simp [ih s hk]
      omega

/-- Splitting an iteration of up-arrow presses. -/
theorem applyPrevs_add : ∀ (m n : Nat) (s : Shell),
    (applyPrevs s (m + n)).1 = (applyPrevs (applyPrevs s m).1 n).1 ∧
    (applyPrevs s (m + n)).2 =
      (applyPrevs s m).2 + (applyPrevs (applyPrevs s m).1 n).2 := by
  intro m
  induction m with
  | zero =>
      intro n s
      simp [applyPrevs]
  | succ p ih =>
      intro n s
      rw [Nat.succ_add]
      obtain ⟨h1, h2⟩ := ih n (histStep s .recallPrev).1
      constructor
      · show (applyPrevs (histStep s .recallPrev).1 (p + n)).1 = _
        rw [h1]
        rfl
      · show (if (histStep s .recallPrev).2 then 1 else 0) +
            (applyPrevs (histStep s .recallPrev).1 (p + n)).2 = _
        rw [h2]
        show _ = (if (histStep s .recallPrev).2 then 1 else 0) +
            (applyPrevs (histStep s .recallPrev).1 p).2 +
            (applyPrevs (applyPrevs (histStep s .recallPrev).1 p).1 n).2
        omega

/-- C3: the history cursor never resolves to an out-of-range index — an
accepted recall step reads an index inside `[0, len(history))`; a
rejected step leaves cursor and buffer unchanged and rings the bell
exactly once; and starting a collection cycle (cursor 0), pressing
up-arrow `n ≥ len(history)` times returns the same buffer as pressing it
exactly `len(history)` times, with one bell per press beyond the
boundary. -/
theorem history_recall_bounded :
    (∀ (s : Shell) (e : HistEvent), (histStep s e).2 = false →
        0 ≤ recallIdx s e ∧ recallIdx s e < s.history.length) ∧
    (∀ (s : Shell) (e : HistEvent), (histStep s e).2 = true →
        (histStep s e).1 = s) ∧
    (∀ (wd inp : GoStr) (hist : List GoStr) (n : Nat), hist.length ≤ n →
        (applyPrevs ⟨wd, hist, 0, inp⟩ n).1.input =
          (applyPrevs ⟨wd, hist, 0, inp⟩ hist.length).1.input ∧
        (applyPrevs ⟨wd, hist, 0, inp⟩ n).2 = n - hist.length) := by
  refine ⟨?_, ?_, ?_⟩
  · intro s e hb
    cases e
    · by_cases h : 0 ≤ recallIdx s .recallPrev ∧
          recallIdx s .recallPrev < s.history.length
      · exact h
      · rw [histStep_prev_reject s h] at hb
        exact absurd hb (by simp)
    · by_cases h : 0 ≤ recallIdx s .recallNext ∧
          recallIdx s .recallNext < s.history.length
      · exact h
      · rw [histStep_next_reject s h] at hb
        exact absurd hb (by simp)
  · intro s e hb
    cases e
    · by_cases h : 0 ≤ recallIdx s .recallPrev ∧
          recallIdx s .recallPrev < s.history.length
      · rw [histStep_prev_accept s h] at hb
        exact absurd hb (by simp)
      · rw [histStep_prev_reject s h]
    · by_cases h : 0 ≤ recallIdx s .recallNext ∧
          recallIdx s .recallNext < s.history.length
      · rw [histStep_next_accept s h] at hb
        exact absurd hb (by simp)
      · rw [histStep_next_reject s h]
  · intro wd inp hist n hlen
    obtain ⟨hp1, hp2, hp3⟩ :=
      applyPrevs_pos hist.length ⟨wd, hist, 0, inp⟩ 0 rfl (by simp)
    have hfrozen : (applyPrevs ⟨wd, hist, 0, inp⟩ hist.length).1.historyPos =
        ((applyPrevs ⟨wd, hist, 0, inp⟩ hist.length).1.history.length : Int) := by
      rw [hp1, hp2]
      simp
    obtain ⟨ha1, ha2⟩ := applyPrevs_add hist.length (n - hist.length)
      ⟨wd, hist, 0, inp⟩
    have hn : hist.length + (n - hist.length) = n := by omega
    rw [hn] at ha1 ha2
    have hb := applyPrevs_boundary (n - hist.length)
      (applyPrevs ⟨wd, hist, 0, inp⟩ hist.length).1 hfrozen
    constructor
    · rw [ha1, hb]
    · rw [ha2, hb, hp3]
      simp

/-- Witness for the bounded-recall theorem: one history entry `a`, three
up-arrow presses; the buffer after three presses equals the buffer after
one press, and two bells rang. -/
theorem history_recall_bounded_witness :
    (applyPrevs ⟨[], [['a']], 0, ['x']⟩ 3).1.input =
      (applyPrevs ⟨[], [['a']], 0, ['x']⟩ 1).1.input ∧
    (applyPrevs ⟨[], [['a']], 0, ['x']⟩ 3).2 = 2 := by
  have h := history_recall_bounded.2.2 [] ['x'] [['a']] 3 (by decide)
  exact h

/-- C9 (code bug): the line `ls |` splits into the segment `ls ` and an
empty segment; the empty segment's whitespace split is the empty token
list, so reading `fields[0]` is an out-of-bounds access (a Go panic that
aborts the shell), modelled by `parseCommand` returning `none` and the
prompt dispatch ending in the panic outcome. -/
theorem pipe_parse_out_of_bounds :
    fieldsGo ([] : GoStr) = [] ∧
    parseCommand ([] : GoStr) = none ∧
    splitOnCharGo '|' (('l' :: 's' :: ' ' :: '|' :: [])) =
      [('l' :: 's' :: ' ' :: []), []] ∧
    (promptDispatch env0 shell0 ('l' :: 's' :: ' ' :: '|' :: [])).1 =
      .panicked := by
  refine ⟨rfl, rfl, ?_, ?_⟩ <;> decide

/-- C6 counterexample: in the escape state (`prev = '['`) the byte `#`
is unrecognized; the code inserts `[` unconditionally even though `[`
fails the printable filter, so the buffer becomes `[#`, not `#` as the
claim predicts. -/
theorem escape_fallback_counterexample :
    readStep ⟨⟨[], [], 0, []⟩, '['⟩ '#' =
      .cont ⟨⟨[], [], 0, ['[', '#']⟩, '#'⟩ false ∧
    isValidChar '[' = false ∧
    (['[', '#'] : GoStr) ≠ ['#'] := by
  refine ⟨?_, ?_, ?_⟩ <;> decide

/-- C6 (amended): for every decoder state in the escape state
(`prev = '['`) and every byte `b` other than the selectors
`A`, `B`, `C`, `D`, the decoder appends the introducer byte `[` to the
buffer unconditionally, then `b` exactly when `b` passes the printable
filter, and the loop continues with `prev = b`. -/
theorem escape_fallback_spec (st : RIState) (b : Char)
    (hesc : st.prev = '[')
    (hA : b ≠ 'A') (hB : b ≠ 'B') (hC : b ≠ 'C') (hD : b ≠ 'D') :
    readStep st b =
      .cont ⟨{ st.sh with input :=
        st.sh.input ++ '[' :: (if isValidChar b then [b] else []) }, b⟩ false := by
  unfold readStep
  rw [if_pos hesc, if_neg hA, if_neg hB, if_neg hC, if_neg hD]
  unfold insertChar
  rw [hesc]
  by_cases hv : isValidChar b = true
  · simp [hv]
  · simp [hv]

/-- Witness for the escape-fallback theorem at the byte `!`: the buffer
receives `[` then `!`. -/
theorem escape_fallback_spec_witness :
    readStep ⟨⟨[], [], 0, []⟩, '['⟩ '!' =
      .cont ⟨⟨[], [], 0, ['[', '!']⟩, '!'⟩ false :=
  escape_fallback_spec ⟨⟨[], [], 0, []⟩, '['⟩ '!' rfl
    (by decide) (by decide) (by decide) (by decide)

/-- A parsed command always has an unassigned `Dir` field. -/
theorem parseCommand_dir (seg : GoStr) (c : Cmd) (h : parseCommand seg = some c) :
    c.dir = [] := by
  unfold parseCommand at h
  cases hf : fieldsGo seg <;> rw [hf] at h
  · simp at h
  · simp at h
    rw [← h]

/-- Every command built by the parsing loop has an unassigned `Dir`. -/
theorem parseAll_dir : ∀ (segs : List GoStr) (cmds : List Cmd),
    parseAll segs = some cmds → ∀ c ∈ cmds, c.dir = [] := by
  intro segs
  induction segs with
  | nil =>
      intro cmds h c hc
      simp [parseAll] at h
      rw [h] at hc
      simp at hc
  | cons seg rest ih =>
      intro cmds h c hc
      unfold parseAll at h
      cases hp : parseCommand seg <;> rw [hp] at h
      · simp at h
      · cases hr : parseAll rest <;> rw [hr] at h
        · simp at h
        · simp at h
          rw [← h] at hc
          rcases List.mem_cons.mp hc with h1 | h2
          · rw [h1]; exact parseCommand_dir seg _ hp
          · exact ih _ hr c h2

/-- When no segment is whitespace-only, the parsing loop of
`handlePipeCommands` builds one command per segment, none with an
assigned `Dir`. -/
theorem parseAll_some : ∀ (segs : List GoStr),
    (∀ seg ∈ segs, fieldsGo seg ≠ []) →
    ∃ cmds, parseAll segs = some cmds ∧ cmds.length = segs.length := by
  intro segs
  induction segs with
  | nil => intro _; exact ⟨[], rfl, rfl⟩
  | cons seg rest ih =>
      intro h
      obtain ⟨cmds, hc, hl⟩ := ih (fun u hu => h u (List.mem_cons_of_mem _ hu))
      have hf : fieldsGo seg ≠ [] := h seg (List.mem_cons_self _ _)
      cases hfe : fieldsGo seg with
      | nil => exact absurd hfe hf
      | cons n a =>
          refine ⟨⟨n, a, []⟩ :: cmds, ?_, by simp [hl]⟩
          unfold parseAll parseCommand
          rw [hfe, hc]

/-- When every `Run` succeeds, the executor runs one stage per command
and reports no error. -/
theorem runStages_ok (run : Cmd → Stdin → Except GoStr GoStr)
    (hok : ∀ c i, (run c i).isOk = true) :
    ∀ (cmds : List Cmd) (inp : Stdin),
      (runStages run cmds inp).length = cmds.length ∧
      (runStages run cmds inp).any (fun st => !st.result.isOk) = false := by
  intro cmds
  induction cmds with
  | nil => intro inp; exact ⟨rfl, rfl⟩
  | cons c cs ih =>
      intro inp
      have hko := hok c inp
      cases hr : run c inp with
      | error e => rw [hr] at hko; simp [Except.isOk, Except.toBool] at hko
      | ok out =>
          obtain ⟨ih1, ih2⟩ := ih (.buffer out)
          constructor
          · simp [runStages, hr, ih1]
          · simp [runStages, hr, Except.isOk, Except.toBool]
            simpa [Except.isOk, Except.toBool] using ih2

/-- The first stage of a non-empty trace is wired to the stdin the
executor was given. -/
theorem runStages_stdin0 (run : Cmd → Stdin → Except GoStr GoStr) :
    ∀ (cmds : List Cmd) (inp : Stdin),
      0 < (runStages run cmds inp).length →
      ((runStages run cmds inp).getD 0 stageDefault).stdin = inp := by
  intro cmds inp h
  cases cmds with
  | nil => simp [runStages] at h
  | cons c cs =>
      cases hr : run c inp with
      | ok out => simp [runStages, hr]
      | error e => simp [runStages, hr]

/-- When every `Run` succeeds, each stage's captured output is supplied
verbatim as the following stage's stdin. -/
theorem runStages_chain (run : Cmd → Stdin → Except GoStr GoStr)
    (hok : ∀ c i, (run c i).isOk = true) :
    ∀ (cmds : List Cmd) (inp : Stdin) (i : Nat),
      i + 1 < (runStages run cmds inp).length →
      ∃ out, ((runStages run cmds inp).getD i stageDefault).result = .ok out ∧
        ((runStages run cmds inp).getD (i + 1) stageDefault).stdin = .buffer out := by
  intro cmds
  induction cmds with
  | nil => intro inp i h; simp [runStages] at h
  | cons c cs ih =>
      intro inp i h
      have hko := hok c inp
      cases hr : run c inp with
      | error e => rw [hr] at hko; simp [Except.isOk, Except.toBool] at hko
      | ok out =>
          simp only [runStages, hr] at h ⊢
          cases i with
          | zero =>
              refine ⟨out, by simp, ?_⟩
              have hlen : 0 < (runStages run cs (Stdin.buffer out)).length := by
                simp at h
                omega
              simpa using runStages_stdin0 run cs (.buffer out) hlen
          | succ j =>
              have hh : j + 1 < (runStages run cs (Stdin.buffer out)).length := by
                simp at h
                omega
              simpa using ih (.buffer out) j hh

/-- A failing stage ends the trace: no stage after it is attempted. -/
theorem runStages_abort (run : Cmd → Stdin → Except GoStr GoStr) :
    ∀ (cmds : List Cmd) (inp : Stdin) (i : Nat),
      i < (runStages run cmds inp).length →
      ((runStages run cmds inp).getD i stageDefault).result.isOk = false →
      (runStages run cmds inp).length = i + 1 := by
  intro cmds
  induction cmds with
  | nil => intro inp i h _; simp [runStages] at h
  | cons c cs ih =>
      intro inp i h hfail
      cases hr : run c inp with
      | ok out =>
          simp only [runStages, hr] at h hfail ⊢
          cases i with
          | zero => simp [Except.isOk, Except.toBool] at hfail
          | succ j =>
              have hj : j < (runStages run cs (Stdin.buffer out)).length := by
                simp at h
                omega
              have := ih (.buffer out) j hj (by simpa using hfail)
              simp [this]
      | error e =>
          simp only [runStages, hr] at h ⊢
          simp at h ⊢
          omega

/-- Every stage in a trace runs one of the parsed commands. -/
theorem runStages_cmds (run : Cmd → Stdin → Except GoStr GoStr) :
    ∀ (cmds : List Cmd) (inp : Stdin) (st : Stage),
      st ∈ runStages run cmds inp → st.cmd ∈ cmds := by
  intro cmds
  induction cmds with
  | nil => intro inp st h; simp [runStages] at h
  | cons c cs ih =>
      intro inp st h
      cases hr : run c inp with
      | ok out =>
          simp only [runStages, hr] at h
          rcases List.mem_cons.mp h with h1 | h2
          · rw [h1]; exact List.mem_cons_self _ _
          · exact List.mem_cons_of_mem _ (ih _ _ h2)
      | error e =>
          simp only [runStages, hr] at h
          simp at h
          rw [h]
          exact List.mem_cons_self _ _

/-- C1: for every submitted line containing `|` whose `|`-delimited
segments all contain a token and whose stages all run successfully, the
pipeline executor runs exactly one stage per segment (these are exactly
the processes the prompt spawns), and for every stage `i < N` the bytes
stage `i` wrote to its captured stdout buffer are supplied verbatim as
stage `i+1`'s stdin. -/
theorem pipeline_stage_count_verbatim (env : Env) (s : Shell) (input : GoStr)
    (hpipe : input.contains '|' = true)
    (hparse : ∀ seg ∈ splitOnCharGo '|' input, fieldsGo seg ≠ [])
    (hok : ∀ c i, (env.run c i).isOk = true) :
    ∃ tr, handlePipeCommands env.run input = .completed tr false ∧
      (promptDispatch env s input).2 = tr.map (fun st => Effect.spawn st.cmd) ∧
      tr.length = (splitOnCharGo '|' input).length ∧
      ∀ i : Nat, i + 1 < tr.length →
        ∃ out, (tr.getD i stageDefault).result = .ok out ∧
          (tr.getD (i + 1) stageDefault).stdin = .buffer out := by
  obtain ⟨cmds, hc, hlen⟩ := parseAll_some _ hparse
  obtain ⟨hrl, hra⟩ := runStages_ok env.run hok cmds .nilStdin
  have hH : handlePipeCommands env.run input =
      .completed (runStages env.run cmds .nilStdin) false := by
    simp only [handlePipeCommands, hc, hra]
  have hmem : '|' ∈ input := by simpa using hpipe
  refine ⟨runStages env.run cmds .nilStdin, hH, ?_, ?_, ?_⟩
  · simp [promptDispatch, hmem, hH]
  · rw [hrl, hlen]
  · intro i hi
    exact runStages_chain env.run hok cmds .nilStdin i hi

/-- Witness for the pipeline theorem at the line `echo hi | wc -c` in an
environment where every run succeeds. -/
theorem pipeline_stage_count_verbatim_witness :
    ∃ tr, handlePipeCommands env0.run (('e' :: 'c' :: 'h' :: 'o' :: ' ' :: 'h' :: 'i' :: ' ' :: '|' :: ' ' :: 'w' :: 'c' :: ' ' :: '-' :: 'c' :: [])) = .completed tr false ∧
      (promptDispatch env0 shell0 (('e' :: 'c' :: 'h' :: 'o' :: ' ' :: 'h' :: 'i' :: ' ' :: '|' :: ' ' :: 'w' :: 'c' :: ' ' :: '-' :: 'c' :: []))).2 = tr.map (fun st => Effect.spawn st.cmd) ∧
      tr.length = (splitOnCharGo '|' (('e' :: 'c' :: 'h' :: 'o' :: ' ' :: 'h' :: 'i' :: ' ' :: '|' :: ' ' :: 'w' :: 'c' :: ' ' :: '-' :: 'c' :: []))).length ∧
      ∀ i : Nat, i + 1 < tr.length →
        ∃ out, (tr.getD i stageDefault).result = .ok out ∧
          (tr.getD (i + 1) stageDefault).stdin = .buffer out :=
  pipeline_stage_count_verbatim env0 shell0 _ (by decide) (by decide)
    (fun _ _ => rfl)

/-- C2 counterexample: with tracked working directory `/tmp`, the
pipeline `a | b` spawns its first stage with `Dir` unset (the Go zero
value, i.e. the shell process's own OS-level directory), not `/tmp`. -/
theorem pipeline_stage_dir_counterexample :
    Effect.spawn ⟨['a'], [], []⟩ ∈
      (promptDispatch env0 shell0 (('a' :: ' ' :: '|' :: ' ' :: 'b' :: []))).2 ∧
    ([] : GoStr) ≠ shell0.workingDir := by
  constructor <;> decide

/-- C2 (amended): the single-command external path spawns its command
with `Dir` set to the shell's tracked working directory, but every stage
spawned by the pipeline path has `Dir` unset and so runs in the shell
process's own OS-level current directory. -/
theorem spawn_dir_spec :
    (∀ (env : Env) (s : Shell) (input name : GoStr) (args : List GoStr),
      input.contains '|' = false →
      fieldsGo input = name :: args →
      name ≠ ('c' :: 'd' :: []) →
      name ≠ ('p' :: 'w' :: 'd' :: []) →
      name ≠ ('h' :: 'i' :: 's' :: 't' :: 'o' :: 'r' :: 'y' :: []) →
      name ≠ ('e' :: 'x' :: 'i' :: 't' :: []) →
      env.resolve name = true →
      ∃ rest, (promptDispatch env s input).2 =
        Effect.spawn ⟨name, args, s.workingDir⟩ :: rest) ∧
    (∀ (env : Env) (s : Shell) (input : GoStr) (c : Cmd),
      input.contains '|' = true →
      Effect.spawn c ∈ (promptDispatch env s input).2 →
      c.dir = []) := by
  constructor
  · intro env s input name args hpipe hfields hcd hpwd hhist hexit hres
    simp only [promptDispatch, hpipe, hfields]
    rw [if_neg hcd, if_neg hpwd, if_neg hhist, if_neg hexit]
    simp only [hres]
    cases hr : env.run ⟨name, args, s.workingDir⟩ .terminal with
    | ok out => exact ⟨[], by simp⟩
    | error e => exact ⟨[.printOut e], by simp⟩
  · intro env s input c hpipe hmem
    simp only [promptDispatch, hpipe] at hmem
    cases hh : handlePipeCommands env.run input with
    | panicked => rw [hh] at hmem; simp at hmem
    | completed tr err =>
        rw [hh] at hmem
        simp at hmem
        obtain ⟨st, hst, hc⟩ := hmem
        unfold handlePipeCommands at hh
        cases hp : parseAll (splitOnCharGo '|' input) <;> rw [hp] at hh
        · simp at hh
        · simp at hh
          obtain ⟨htr, _⟩ := hh
          have hin : st.cmd ∈ _ := runStages_cmds env.run _ .nilStdin st (htr ▸ hst)
          rw [← hc]
          exact parseAll_dir _ _ hp st.cmd hin

/-- Witness for the spawn-directory theorem: the single command `ls` is
spawned with `Dir` equal to the tracked directory `/tmp`. -/
theorem spawn_dir_spec_witness :
    ∃ rest, (promptDispatch env0 shell0 (('l' :: 's' :: []))).2 =
      Effect.spawn ⟨('l' :: 's' :: []), [], shell0.workingDir⟩ :: rest :=
  spawn_dir_spec.1 env0 shell0 (('l' :: 's' :: [])) (('l' :: 's' :: [])) []
    (by decide) (by decide) (by decide) (by decide) (by decide) (by decide) rfl

/-- C7 counterexample: in the pipeline `nosuchcmd | wc -c` the first
stage's program does not resolve and its `Run` fails, yet the prompt
prints nothing at all — in particular no `command not found` diagnostic
naming the program. -/
theorem pipe_no_diagnostic_counterexample :
    handlePipeCommands envFail.run
        (('n' :: 'o' :: 's' :: 'u' :: 'c' :: 'h' :: 'c' :: 'm' :: 'd' :: ' ' :: '|' :: ' ' :: 'w' :: 'c' :: ' ' :: '-' :: 'c' :: [])) =
      .completed [⟨⟨('n' :: 'o' :: 's' :: 'u' :: 'c' :: 'h' :: 'c' :: 'm' :: 'd' :: []), [], []⟩, .nilStdin, .error ['e']⟩] true ∧
    (promptDispatch envFail shell0
        (('n' :: 'o' :: 's' :: 'u' :: 'c' :: 'h' :: 'c' :: 'm' :: 'd' :: ' ' :: '|' :: ' ' :: 'w' :: 'c' :: ' ' :: '-' :: 'c' :: []))).2.any
      isPrintEffect = false := by
  constructor <;> decide

/-- C7 (amended): a failing stage is the last stage attempted — no stage
after it runs — but the pipeline path of the prompt prints no diagnostic
at all: the error `handlePipeCommands` returns is discarded. -/
theorem pipeline_abort_silent :
    (∀ (run : Cmd → Stdin → Except GoStr GoStr) (cmds : List Cmd)
        (inp : Stdin) (i : Nat),
      i < (runStages run cmds inp).length →
      ((runStages run cmds inp).getD i stageDefault).result.isOk = false →
      (runStages run cmds inp).length = i + 1) ∧
    (∀ (env : Env) (s : Shell) (input : GoStr),
      input.contains '|' = true →
      (promptDispatch env s input).2.any isPrintEffect = false) := by
  constructor
  · intro run cmds inp i h hfail
    exact runStages_abort run cmds inp i h hfail
  · intro env s input hpipe
    simp only [promptDispatch, hpipe]
    cases hh : handlePipeCommands env.run input with
    | panicked => simp
    | completed tr err => simp [List.any_map, isPrintEffect, Function.comp]

/-- Witness for the abort theorem: a one-command pipeline whose command
fails ran exactly that one stage. -/
theorem pipeline_abort_silent_witness :
    (runStages envFail.run [⟨['a'], [], []⟩] .nilStdin).length = 0 + 1 :=
  pipeline_abort_silent.1 envFail.run [⟨['a'], [], []⟩] .nilStdin 0
    (by decide) (by decide)

/-- `changeDir` only prints; it writes no file. -/
theorem changeDir_no_writeFile (env : Env) (s : Shell) (d : GoStr) :
    (changeDir env s d).2.2.all (fun e => !isWriteFile e) = true := by
  unfold changeDir
  by_cases h : env.dirExists
      (if isAbsGo d then d else env.pathJoin s.workingDir d) = true <;>
    simp [h, isWriteFile]

/-- No branch of the prompt dispatch writes any file: `saveHistory` is
called only from `Start`, which the entry point never invokes. -/
theorem promptDispatch_no_writeFile (env : Env) (s : Shell) (input : GoStr) :
    (promptDispatch env s input).2.all (fun e => !isWriteFile e) = true := by
  unfold promptDispatch
  by_cases hp : input.contains '|' = true
  · simp only [hp]
    cases hh : handlePipeCommands env.run input <;>
      simp [List.all_map, isWriteFile]
  · have hp' : input.contains '|' = false := by simpa using hp
    simp only [hp', Bool.false_eq_true, if_false]
    cases hf : fieldsGo input with
    | nil => simp
    | cons name args =>
        dsimp only
        have hcd := changeDir_no_writeFile env s (args.headD [])
        by_cases h1 : name = ('c' :: 'd' :: [])
        · simp only [h1, if_pos rfl]
          by_cases h2 : args.isEmpty
          · simp [h2, isWriteFile]
          · simp only [h2]
            by_cases h3 : (changeDir env s (args.headD [])).2.1 = true <;>
              simp_all [List.all_append, isWriteFile]
        · rw [if_neg h1]
          by_cases h2 : name = ('p' :: 'w' :: 'd' :: [])
          · simp [h2, isWriteFile]
          · rw [if_neg h2]
            by_cases h3 : name = ('h' :: 'i' :: 's' :: 't' :: 'o' :: 'r' :: 'y' :: [])
            · simp [h3, isWriteFile]
            · rw [if_neg h3]
              by_cases h4 : name = ('e' :: 'x' :: 'i' :: 't' :: [])
              · simp [h4]
              · rw [if_neg h4]
                by_cases h5 : env.resolve name = true
                · simp only [h5, if_pos rfl]
                  cases hr : env.run ⟨name, args, s.workingDir⟩ .terminal <;>
                    simp [isWriteFile]
                · have h5' : env.resolve name = false := by simpa using h5
                  simp [h5', isWriteFile]

/-- One prompt cycle writes no file. -/
theorem promptGo_no_writeFile (env : Env) (s : Shell) (stream : List Char) :
    (promptGo env s stream).2.2.all (fun e => !isWriteFile e) = true := by
  unfold promptGo readInput
  simp [promptDispatch_no_writeFile]

/-- The entry loop writes no file, for any fuel, state and stdin. -/
theorem runShell_no_writeFile (env : Env) :
    ∀ (fuel : Nat) (s : Shell) (stream : List Char),
      (runShell env fuel s stream).2.all (fun e => !isWriteFile e) = true := by
  intro fuel
  induction fuel with
  | zero => intro s stream; rfl
  | succ n ih =>
      intro s stream
      unfold runShell
      rcases hpg : promptGo env s stream with ⟨o, rest, effs⟩
      have heff : effs.all (fun e => !isWriteFile e) = true := by
        have h := promptGo_no_writeFile env s stream
        rw [hpg] at h
        exact h
      cases o with
      | next s' =>
          have h2 := ih s' rest
          simp_all [List.all_append]
      | exited code => simp_all
      | panicked => simp_all

/-- The `readInput` loop breaks only on the enter byte. -/
theorem readStep_stop_newline (st : RIState) (b : Char) (st' : RIState)
    (bell : Bool) (h : readStep st b = .stop st' bell) : b = '\n' := by
  unfold readStep at h
  dsimp only at h
  split_ifs at h <;> simp_all

/-- A stream with no enter byte is consumed whole: the loop only ends
when `ReadByte` fails at the exhausted stream. -/
theorem readLoop_consumes : ∀ (stream : List Char) (st : RIState),
    '\n' ∉ stream → (readLoop st stream).2 = [] := by
  intro stream
  induction stream with
  | nil => intro st _; rfl
  | cons b rest ih =>
      intro st h
      have hb : b ≠ '\n' := fun hbe => h (hbe ▸ List.mem_cons_self _ _)
      have hrest : '\n' ∉ rest := fun hm => h (List.mem_cons_of_mem _ hm)
      cases hs : readStep st b with
      | cont st' bell => simp only [readLoop, hs]; exact ih st' hrest
      | stop st' bell =>
          exact absurd (readStep_stop_newline st b st' bell hs) hb

/-- A prompt cycle against an exhausted stdin: the read failure yields
the empty submitted line and the loop goes around again. -/
theorem promptGo_empty (env : Env) (s : Shell) :
    promptGo env s [] =
      (.next { s with input := [], historyPos := 0 }, [], []) := rfl

/-- With stdin exhausted (every `ReadByte` failing), the entry loop never
ends: after any number of cycles it is still running. -/
theorem runShell_empty_keeps_running (env : Env) :
    ∀ (fuel : Nat) (s : Shell),
      ∃ s', (runShell env fuel s []).1 = .next s' := by
  intro fuel
  induction fuel with
  | zero => intro s; exact ⟨s, rfl⟩
  | succ n ih =>
      intro s
      unfold runShell
      rw [promptGo_empty]
      obtain ⟨s', h⟩ := ih { s with input := [], historyPos := 0 }
      exact ⟨s', by simpa using h⟩

/-- C8 (amended): a failing byte read terminates the collection loop
early — a stream without an enter byte is consumed whole — and the
accumulated buffer (trimmed) is the submitted line; but the failure is
not propagated: `readInput` returns a nil error, the entry loop keeps
running, and no shutdown history save exists on any path. -/
theorem read_error_swallowed :
    (∀ (s : Shell) (stream : List Char), stream.contains '\n' = false →
      (readLoop ⟨{ s with input := [], historyPos := 0 }, Char.ofNat 0⟩ stream).2 = [] ∧
      readInput s stream =
        ((readLoop ⟨{ s with input := [], historyPos := 0 }, Char.ofNat 0⟩ stream).1.sh,
         (readLoop ⟨{ s with input := [], historyPos := 0 }, Char.ofNat 0⟩ stream).2,
         trimSpace (readLoop ⟨{ s with input := [], historyPos := 0 }, Char.ofNat 0⟩ stream).1.sh.input,
         none)) ∧
    (∀ (env : Env) (fuel : Nat) (s : Shell),
      ∃ s', (runShell env fuel s []).1 = .next s') ∧
    (∀ (env : Env) (fuel : Nat) (s : Shell) (stream : List Char),
      (runShell env fuel s stream).2.all (fun e => !isWriteFile e) = true) := by
  refine ⟨?_, ?_, ?_⟩
  · intro s stream hnl
    have hmem : '\n' ∉ stream := by simpa using hnl
    exact ⟨readLoop_consumes stream _ hmem, rfl⟩
  · intro env fuel s
    exact runShell_empty_keeps_running env fuel s
  · intro env fuel s stream
    exact runShell_no_writeFile env fuel s stream

/-- Witness for the swallowed-read-error theorem at the stream `ab`
(exhausted before any enter). -/
theorem read_error_swallowed_witness :
    (readLoop ⟨{ shell0 with input := [], historyPos := 0 }, Char.ofNat 0⟩ ('a' :: 'b' :: [])).2 = [] ∧
    readInput shell0 ('a' :: 'b' :: []) =
      ((readLoop ⟨{ shell0 with input := [], historyPos := 0 }, Char.ofNat 0⟩ ('a' :: 'b' :: [])).1.sh,
       (readLoop ⟨{ shell0 with input := [], historyPos := 0 }, Char.ofNat 0⟩ ('a' :: 'b' :: [])).2,
       trimSpace (readLoop ⟨{ shell0 with input := [], historyPos := 0 }, Char.ofNat 0⟩ ('a' :: 'b' :: [])).1.sh.input,
       none) :=
  read_error_swallowed.1 shell0 ('a' :: 'b' :: []) (by decide)

/-- C8 counterexample: the stream `l`,`s` ends in a read failure before
any enter; `readInput` nevertheless returns a nil error with `ls` as the
submitted line, and the entry loop neither ends nor saves the history —
after two further cycles it is still running with no file written. -/
theorem read_error_not_propagated_counterexample :
    (readInput shell0 ('l' :: 's' :: [])).2.2 = (('l' :: 's' :: []), none) ∧
    (runShell envFail 2 shell0 ('l' :: 's' :: [])).1 =
      .next ⟨('/' :: 't' :: 'm' :: 'p' :: []), [('l' :: 's' :: [])], 0, []⟩ ∧
    (runShell envFail 2 shell0 ('l' :: 's' :: [])).2.all
      (fun e => !isWriteFile e) = true := by
  refine ⟨?_, ?_, ?_⟩ <;> decide

/-- C10: whenever the `exit` builtin runs, the prompt ends the process
with exit status 0 and no effects — the deferred history append is
skipped — and no run of the entry loop ever writes the history file, so
the persisted history is untouched on every invocation of `exit`. -/
theorem exit_bypasses_history_save (env : Env) (s : Shell) (input : GoStr)
    (hnp : input.contains '|' = false)
    (hf : ∃ args, fieldsGo input = ('e' :: 'x' :: 'i' :: 't' :: []) :: args) :
    promptDispatch env s input = (.exited 0, []) ∧
    ∀ (fuel : Nat) (s0 : Shell) (stream : List Char),
      (runShell env fuel s0 stream).2.all (fun e => !isWriteFile e) = true := by
  obtain ⟨args, hargs⟩ := hf
  constructor
  · simp only [promptDispatch, hnp, Bool.false_eq_true, if_false, hargs]
    rw [if_neg (by decide), if_neg (by decide), if_neg (by decide)]
    simp
  · intro fuel s0 stream
    exact runShell_no_writeFile env fuel s0 stream

/-- Witness for the exit theorem at the literal input `exit`. -/
theorem exit_bypasses_history_save_witness :
    promptDispatch env0 shell0 ('e' :: 'x' :: 'i' :: 't' :: []) =
      (.exited 0, []) :=
  (exit_bypasses_history_save env0 shell0 ('e' :: 'x' :: 'i' :: 't' :: [])
    (by decide) ⟨[], by decide⟩).1

end GoShell
